import Mathlib

/-!
Shallow embedding of the route/middleware parsing and registration engine of
the create-mock-server repository.

The repository contains two generations of the same idea.  The first
generation (src/src/utils.ts, the flat-router builder and the bootstrap in the
unnamed server file) works on a flat array of route descriptors; the second
generation (routes.ts, middlewares.ts, util.ts) works on a nested route tree
and a heterogeneous middleware array.  Handlers, middleware functions and
option objects are opaque at this layer, so they are represented by numeric
identities.  Registration calls against the external h3 application/router
capability are represented as explicit event lists, in the order the code
issues them.
-/

/-- Whether the first character list is an initial segment of the second. -/
def listLeads : List Char → List Char → Bool
  | [], _ => true
  | _ :: _, [] => false
  | a :: as, b :: bs => a = b && listLeads as bs

/-- string.startsWith of JS, written on the character list so that concrete
instances reduce inside the kernel. -/
def strStartsWith (s pre : String) : Bool :=
  listLeads pre.toList s.toList

/-- string.endsWith of JS, written on the reversed character lists. -/
def strEndsWith (s post : String) : Bool :=
  listLeads post.toList.reverse s.toList.reverse

/-- The whitespace characters string.trim strips, restricted to the ones the
repository's inputs can carry. -/
def jsWhitespace (c : Char) : Bool :=
  c = ' ' ∨ c = '\t' ∨ c = '\n' ∨ c = '\r'

/-- string.trim of JS: strip leading and trailing whitespace. -/
def strTrim (s : String) : String :=
  String.mk (((s.toList.dropWhile jsWhitespace).reverse.dropWhile jsWhitespace).reverse)

/-- prefix.slice(0, -1): the string without its last character. -/
def strDropLast (s : String) : String :=
  String.mk s.toList.dropLast

/-- A flat route descriptor (interface MethodOption of the first generation):
a url, an optional lowercase HTTP method and an opaque handler.  The handler
is identified by a number. -/
structure MethodOption where
  url : String
  method : Option String
  handler : Nat
deriving Repr, DecidableEq

/-- The prefix normalization of addRoutesPrefix (src/src/utils.ts): prepend a
slash when missing (normalizedPrefix), then drop one trailing slash unless
the normalized prefix is exactly "/" (cleanPrefix). -/
def cleanPrefixOf (pfx : String) : String :=
  let normalizedPfx := if strStartsWith pfx "/" then pfx else "/" ++ pfx
  if strEndsWith normalizedPfx "/" ∧ normalizedPfx ≠ "/" then
    strDropLast normalizedPfx
  else
    normalizedPfx

/-- The per-route closure of addRoutesPrefix: rewrite the url by the three
branches of the source and shallow-copy the other fields. -/
def prefixRoute (cleanPfx : String) (route : MethodOption) : MethodOption :=
  let prefixedUrl :=
    if route.url = "/" then
      if cleanPfx = "/" then "/" else cleanPfx
    else if strStartsWith route.url "/" then
      if cleanPfx = "/" then route.url else cleanPfx ++ route.url
    else
      cleanPfx ++ "/" ++ route.url
  { url := prefixedUrl, method := route.method, handler := route.handler }

/-- addRoutesPrefix from src/src/utils.ts.  Returns the input array when the
prefix string is empty or whitespace-only (the JS guard is
`!prefix || prefix.trim() === ''`); otherwise it normalizes the prefix once
and maps the per-route rewrite over the array. -/
def addRoutesPrefix (routes : List MethodOption) (pfx : String) : List MethodOption :=
  if pfx = "" ∨ strTrim pfx = "" then
    routes
  else
    routes.map (prefixRoute (cleanPrefixOf pfx))

/-- A middleware entry of the first generation (interface Middleware): an
optional name, an optional isAfter flag and the middleware function itself,
identified by a number. -/
structure Middleware where
  name : Option String
  isAfter : Option Bool
  middleware : Nat
deriving Repr, DecidableEq

/-- JS truthiness of the optional isAfter flag: only the value true is
truthy; false and an absent flag are falsy. -/
def isAfterTruthy (m : Middleware) : Bool :=
  m.isAfter = some true

/-- One registration call issued against the h3 application object by the
bootstrap: either app.use of a wrapped middleware function, or app.use of the
router. -/
inductive AppUseEvent where
  | useHandler (middleware : Nat)
  | useRouter
deriving Repr, DecidableEq

/-- bootstrapApp from the unnamed server file: filter the entries whose
isAfter flag is falsy, then the entries whose flag is truthy, and register
the first group, then the router, then the second group. -/
def bootstrapApp (middlewares : List Middleware) : List AppUseEvent :=
  let beforeMiddlewares := middlewares.filter fun m => !(isAfterTruthy m)
  let afterMiddlewares := middlewares.filter fun m => isAfterTruthy m
  (beforeMiddlewares.map fun m => AppUseEvent.useHandler m.middleware)
    ++ [AppUseEvent.useRouter]
    ++ (afterMiddlewares.map fun m => AppUseEvent.useHandler m.middleware)

/-- One call issued against an h3 router by the flat-router builder: either
router.add of a url, a wrapped handler and a method, or the console warning
for an unsupported method. -/
inductive RouterEvent where
  | add (url : String) (handler : Nat) (method : String)
  | warn (method : String)
deriving Repr, DecidableEq

/-- addRoutes from the unnamed flat-router file, parameterized by the
external router capability, given as the set of method names for which the
router object carries a registration entry point (the JS test is
`!router[method]`).  Each route yields exactly one event: a warning when its
method (default "get") is unsupported, otherwise the add call. -/
def addRoutes (supports : String → Bool) (routes : List MethodOption) : List RouterEvent :=
  routes.map fun r =>
    let m := r.method.getD "get"
    if supports m then RouterEvent.add r.url r.handler m else RouterEvent.warn m

/-- Whether a router event is an add call. -/
def RouterEvent.isAdd : RouterEvent → Bool
  | .add _ _ _ => true
  | .warn _ => false

/-- Modelled from the spec: the helper isEmpty that the flat-router builder
imports from its utils module is not among the repository's files.  Section
4.1 of the spec says an empty or whitespace-only prefix signifies "no
prefix"; an absent option is no prefix as well. -/
def isEmptyPfx (s : Option String) : Bool :=
  match s with
  | none => true
  | some s => strTrim s = ""

/-- Prepending a slash when the string does not start with one: the
normalizedPrefix computation of the flat-router builder. -/
def ensureLeadingSlash (p : String) : String :=
  if strStartsWith p "/" then p else "/" ++ p

/-- The value returned by createH3Router of the unnamed flat-router file
(second generation of the router builder): without a usable prefix, one
router receiving all the add calls; with a prefix, a base router carrying
the direct add calls for the root route, the mount pattern and base path of
the useBase delegation, and the nested router receiving the remaining add
calls. -/
inductive H3RouterResult where
  | simple (events : List RouterEvent)
  | nested (baseAdds : List (String × Nat × Option String))
      (mountPattern : String) (mountBase : String)
      (nestedEvents : List RouterEvent)
deriving Repr, DecidableEq

/-- createH3Router from the unnamed flat-router file.  hasPrefix is
`!isEmpty(prefix) && prefix !== '/'`.  With a prefix: normalize it, pull out
the first route whose url is exactly "/" (routes.find), remove every root
route from the working set (routes.filter), register the found route
directly on the base router at the normalized prefix, hand the remaining
routes to addRoutes on the nested router, and mount the nested router at
normalizedPrefix/** with the prefix stripped (useBase).  Without a prefix:
one router and addRoutes. -/
def createH3Router (supports : String → Bool) (routes : List MethodOption)
    (pfx : Option String) : H3RouterResult :=
  let hasPfx := !(isEmptyPfx pfx) && pfx ≠ some "/"
  if hasPfx then
    let normalizedPfx := ensureLeadingSlash (pfx.getD "")
    match routes.find? fun r => r.url = "/" with
    | some r0 =>
        let rest := routes.filter fun r => ¬(r.url = "/")
        H3RouterResult.nested [(normalizedPfx, r0.handler, r0.method)]
          (normalizedPfx ++ "/**") normalizedPfx (addRoutes supports rest)
    | none =>
        H3RouterResult.nested [] (normalizedPfx ++ "/**") normalizedPfx
          (addRoutes supports routes)
  else
    H3RouterResult.simple (addRoutes supports routes)

/-- The handler identities carried by the add calls of a built router, base
adds first. -/
def registeredHandlers : H3RouterResult → List Nat
  | .simple evs => evs.filterMap fun e =>
      match e with
      | .add _ h _ => some h
      | .warn _ => none
  | .nested baseAdds _ _ evs =>
      (baseAdds.map fun x => x.2.1)
        ++ evs.filterMap fun e =>
          match e with
          | .add _ h _ => some h
          | .warn _ => none

/-- A field value inside a plain JS object, as far as typeof can tell at the
places this model needs it: a function, or some other (non-callable) value.
Both carry an opaque identity. -/
inductive FieldVal where
  | fn (id : Nat)
  | value (id : Nat)
deriving Repr, DecidableEq

/-- An entry of the Middlewares array of the second generation: either a bare
middleware function, or a plain object.  The object carries the fields the
source ever reads: an optional route string, an optional handler field, an
optional middleware field and an optional options object (opaque identity).
The declared MiddlewareConfig interface has only route?, handler and
options?, but the structural classifier of the source probes a middleware
field, so the model keeps both. -/
inductive MWEntry where
  | fn (id : Nat)
  | obj (route : Option String) (handler : Option FieldVal)
      (middleware : Option FieldVal) (options : Option Nat)
deriving Repr, DecidableEq

/-- isMiddlewareConfig from src/src/utils.ts (middlewares module): isObject
(the value is a plain object), then `'middleware' in cfg && typeof
cfg.middleware === 'function'`. -/
def isMiddlewareConfig : MWEntry → Bool
  | .fn _ => false
  | .obj _ _ mw _ =>
      match mw with
      | some (FieldVal.fn _) => true
      | _ => false

/-- One element of a normalized middleware tuple, as pushed by
parseMiddlewares: a route string, the value of the config's handler field
(possibly absent), an options object, or — in the bare branch — the whole
input entry itself. -/
inductive PMItem where
  | routeStr (s : String)
  | handlerField (v : Option FieldVal)
  | optionsVal (o : Nat)
  | rawEntry (e : MWEntry)
deriving Repr, DecidableEq

/-- JS truthiness of the optional route string: absent and the empty string
are falsy. -/
def routeTruthy : Option String → Bool
  | none => false
  | some s => ¬(s = "")

/-- parseMiddlewares from src/src/utils.ts (middlewares module).  For each
entry in order: when isMiddlewareConfig holds, destructure route, handler and
options from the object and push the tuple chosen by the truthiness cascade
`route && options` / `route` / `options`; otherwise push the one-element
tuple holding the entry itself. -/
def parseMiddlewares : List MWEntry → List (List PMItem)
  | [] => []
  | config :: rest =>
    (if isMiddlewareConfig config then
      match config with
      | MWEntry.fn f => [PMItem.rawEntry (MWEntry.fn f)]
      | MWEntry.obj route handler _ options =>
          match routeTruthy route, route, options with
          | true, some r, some o =>
              [PMItem.routeStr r, PMItem.handlerField handler, PMItem.optionsVal o]
          | true, some r, none =>
              [PMItem.routeStr r, PMItem.handlerField handler]
          | _, _, some o =>
              [PMItem.handlerField handler, PMItem.optionsVal o]
          | _, _, none =>
              [PMItem.handlerField handler]
      else
        [PMItem.rawEntry config])
    :: parseMiddlewares rest

/-- A method value inside a nested route tree node (type RouteHandler of the
second generation): either a bare event-handler function, or a
RouteHandlerConfig object carrying a handler and an optional options
object. -/
inductive MethodValue where
  | fn (id : Nat)
  | config (handler : Nat) (options : Option Nat)
deriving Repr, DecidableEq

/-- A value of the nested route tree (type RouteHandler | RouteConfig): a
bare handler function, or a node object with the five optional method fields
and an optional children sub-tree.  The sub-tree, like the tree itself, is a
string-keyed map in insertion order. -/
inductive RouteNode where
  | handler (h : Nat)
  | node (g p u pa d : Option MethodValue)
      (children : Option (List (String × RouteNode)))

/-- A value standing in a handler position of a parsed route: a function, or
— in the degenerate branch where a node object satisfies neither
classification — the node object itself, cast to a handler by the source. -/
inductive HandlerVal where
  | fn (id : Nat)
  | objVal (node : RouteNode)

/-- A parsed route of the second generation (interface ParsedRoute): full
path, method name (or "ALL"), handler and optional options object. -/
structure ParsedRoute where
  route : String
  method : String
  handler : HandlerVal
  options : Option Nat

/-- Collapse every run of consecutive slashes to a single slash (the
replace(/\/+/g, '/') of joinPaths), character by character. -/
def collapseSlashes : List Char → Option Char → List Char
  | [], _ => []
  | c :: cs, prev =>
      if c = '/' ∧ prev = some '/' then collapseSlashes cs prev
      else c :: collapseSlashes cs (some c)

/-- Remove one trailing slash when present (the replace(/\/$/, '') of
joinPaths). -/
def stripTrailingSlash (s : String) : String :=
  if strEndsWith s "/" then strDropLast s else s

/-- Array.prototype.join with a separator, on a list of strings. -/
def strJoin (sep : String) : List String → String
  | [] => ""
  | [x] => x
  | x :: rest => x ++ sep ++ strJoin sep rest

/-- joinPaths from src/src/util.ts: drop the falsy (empty) segments, join
with "/", collapse slash runs, strip one trailing slash, and fall back to
"/" when the result is empty. -/
def joinPaths (paths : List String) : String :=
  let joined :=
    stripTrailingSlash
      (String.mk (collapseSlashes
        (strJoin "/" (paths.filter fun s => ¬(s = ""))).toList none))
  if joined = "" then "/" else joined

/-- isRouteConfig from src/src/routes.ts: isObject (a bare function is not a
plain object), then any of the five method fields or the children field
defined. -/
def isRouteConfigB : RouteNode → Bool
  | .handler _ => false
  | .node g p u pa d ch =>
      g.isSome || p.isSome || u.isSome || pa.isSome || d.isSome || ch.isSome

/-- HTTP_METHODS from the constants module: the fixed enumeration order the
parser walks for every node. -/
def HTTP_METHODS : List String :=
  ["GET", "POST", "PUT", "PATCH", "DELETE"]

/-- The config[method] lookup of parseRoutes on a node's five method
fields. -/
def routeConfigField (g p u pa d : Option MethodValue) : String → Option MethodValue
  | "GET" => g
  | "POST" => p
  | "PUT" => u
  | "PATCH" => pa
  | "DELETE" => d
  | _ => none

/-- The tuples one method field contributes: nothing when the field is
absent; a tuple carrying the options when the value is a RouteHandlerConfig
(isRouteHandlerConfig: a plain object with a callable handler field); a
tuple without options when the value is a bare handler. -/
def methodTuple (fullPath m : String) : Option MethodValue → List ParsedRoute
  | none => []
  | some (MethodValue.fn h) => [⟨fullPath, m, HandlerVal.fn h, none⟩]
  | some (MethodValue.config h o) => [⟨fullPath, m, HandlerVal.fn h, o⟩]

/-- parseRoutes from src/src/routes.ts: walk the entries of the tree in
order; for each entry compute fullPath by joinPaths; a node that
isRouteConfig accepts contributes its method tuples in HTTP_METHODS order
followed by the recursively parsed children; any other value is pushed as a
single method-"ALL" tuple (a bare handler function, or — degenerately — the
node object itself cast to a handler). -/
def parseRoutes : List (String × RouteNode) → String → List ParsedRoute
  | [], _ => []
  | (path, cfg) :: rest, basePath =>
      let fullPath := joinPaths [basePath, path]
      (match cfg with
       | RouteNode.handler h => [⟨fullPath, "ALL", HandlerVal.fn h, none⟩]
       | RouteNode.node g p u pa d ch =>
           if isRouteConfigB (RouteNode.node g p u pa d ch) then
             (HTTP_METHODS.flatMap fun m =>
                methodTuple fullPath m (routeConfigField g p u pa d m))
               ++ (match ch with
                   | some c => parseRoutes c fullPath
                   | none => [])
           else
             [⟨fullPath, "ALL", HandlerVal.objVal (RouteNode.node g p u pa d ch), none⟩])
        ++ parseRoutes rest basePath

/-- One registration call issued against the h3 application object by
registerRoutes: app.all for method "ALL", app.on otherwise, the options
passed along. -/
inductive AppRouteEvent where
  | all (route : String) (handler : HandlerVal) (options : Option Nat)
  | on (method : String) (route : String) (handler : HandlerVal) (options : Option Nat)

/-- Array.isArray applied to a value of type Routes: a route tree is a plain
string-keyed object, never a JS array, so the test is false on every
tree. -/
def routesIsArray (_ : List (String × RouteNode)) : Bool :=
  false

/-- registerRoutes from src/src/routes.ts: the guard returns early unless
`isArray(routes) && routes.length`; past the guard, every parsed tuple is
handed to app.all or app.on. -/
def registerRoutes (routes : List (String × RouteNode)) : List AppRouteEvent :=
  if routesIsArray routes ∧ ¬(routes.length = 0) then
    (parseRoutes routes "").map fun r =>
      if r.method = "ALL" then AppRouteEvent.all r.route r.handler r.options
      else AppRouteEvent.on r.method r.route r.handler r.options
  else
    []

/-- Appending "/" then "/" in front of a string is appending "//". -/
theorem slash_slash_append (s : String) : "/" ++ "/" ++ s = "//" ++ s := by
  rw [show ("/" ++ "/" : String) = "//" from by decide]

/-- A string with "/" prepended is never "/" unless the string is empty. -/
theorem slash_append_ne_root (s : String) (h : s ≠ "") : ("/" ++ s) ≠ "/" := by
  intro hcon
  apply h
  have hd := congrArg String.data hcon
  rw [String.data_append] at hd
  cases s with
  | mk data =>
    cases data with
    | nil => rfl
    | cons c cs => simp at hd

/-- The url "/" starts with "/". -/
theorem strStartsWith_root : strStartsWith "/" "/" = true := by
  decide

/-- C3, counterexample: the claim says addRoutesPrefix with the prefix "/"
returns every route array unchanged, urls that do not start with "/"
included; on the route with url "users" the code returns the url "//users"
instead, so the array is not unchanged. -/
theorem addRoutesPrefix_root_slash_counterexample :
    addRoutesPrefix [⟨"users", some "get", 1⟩] "/" ≠ [⟨"users", some "get", 1⟩]
    ∧ addRoutesPrefix [⟨"users", some "get", 1⟩] "/" = [⟨"//users", some "get", 1⟩] := by
  constructor
  · decide
  · decide

/-- C3, amended: addRoutesPrefix with an empty prefix or a whitespace-only
prefix returns the route array unchanged; with the prefix "/" it keeps every
route whose url starts with "/" (the url "/" included) unchanged, but
rewrites a url that does not start with "/" to "//" followed by the url. -/
theorem addRoutesPrefix_noop_amended (routes : List MethodOption) :
    addRoutesPrefix routes "" = routes
    ∧ addRoutesPrefix routes "   " = routes
    ∧ addRoutesPrefix routes "/" =
        routes.map fun r =>
          if strStartsWith r.url "/" then r
          else { url := "//" ++ r.url, method := r.method, handler := r.handler } := by
  refine ⟨?_, ?_, ?_⟩
  · simp [addRoutesPrefix]
  · simp [addRoutesPrefix, show strTrim "   " = "" from by decide]
  · rw [show addRoutesPrefix routes "/" = routes.map (prefixRoute (cleanPrefixOf "/")) from by
      simp [addRoutesPrefix, show strTrim "/" ≠ "" from by decide]]
    rw [show cleanPrefixOf "/" = "/" from by decide]
    apply List.map_congr_left
    intro r _
    obtain ⟨u, m, hdl⟩ := r
    by_cases hroot : u = "/"
    · subst hroot
      simp [prefixRoute, strStartsWith_root]
    · by_cases hsw : strStartsWith u "/"
      · simp [prefixRoute, hroot, hsw]
      · simp [prefixRoute, hroot, hsw, slash_slash_append]

/-- C9: for every route array and every prefix, addRoutesPrefix keeps the
length, the order and every field other than the url — the mapped list of
(method, handler) pairs is unchanged. -/
theorem addRoutesPrefix_preserves_method_handler (routes : List MethodOption) (pfx : String) :
    ((addRoutesPrefix routes pfx).map fun r => (r.method, r.handler)) =
      routes.map (fun r => (r.method, r.handler))
    ∧ (addRoutesPrefix routes pfx).length = routes.length := by
  unfold addRoutesPrefix
  split
  · exact ⟨rfl, rfl⟩
  · constructor
    · rw [List.map_map]
      rfl
    · rw [List.length_map]

/-- C5: the bootstrap registers the entries whose isAfter flag is falsy
first, in input order, then the router, then the entries whose flag is truthy,
in input order — the event list is the partition of the input with the router
between the two groups; on the interleaved example [m1 before, m2 after, m3
before] the order is m1, m3, router, m2. -/
theorem bootstrapApp_phase_order :
    (∀ middlewares : List Middleware,
      bootstrapApp middlewares =
        (((middlewares.partition isAfterTruthy).2).map fun m => AppUseEvent.useHandler m.middleware)
          ++ [AppUseEvent.useRouter]
          ++ (((middlewares.partition isAfterTruthy).1).map fun m => AppUseEvent.useHandler m.middleware))
    ∧ bootstrapApp
        [⟨some "m1", some false, 1⟩, ⟨some "m2", some true, 2⟩, ⟨some "m3", some false, 3⟩] =
        [AppUseEvent.useHandler 1, AppUseEvent.useHandler 3,
         AppUseEvent.useRouter, AppUseEvent.useHandler 2] := by
  constructor
  · intro middlewares
    rw [List.partition_eq_filter_filter]
    rfl
  · decide

/-- C10: parseMiddlewares maps each entry to exactly one tuple — the output
has the input's length, parseMiddlewares distributes over concatenation, and
the i-th output tuple is the one parseMiddlewares computes from the i-th
entry alone. -/
theorem parseMiddlewares_elementwise :
    (∀ xs : List MWEntry, (parseMiddlewares xs).length = xs.length)
    ∧ (∀ xs ys : List MWEntry,
        parseMiddlewares (xs ++ ys) = parseMiddlewares xs ++ parseMiddlewares ys)
    ∧ (∀ (xs : List MWEntry) (i : Nat),
        (parseMiddlewares xs)[i]? = xs[i]?.bind fun c => (parseMiddlewares [c])[0]?) := by
  refine ⟨?_, ?_, ?_⟩
  · intro xs
    induction xs with
    | nil => rfl
    | cons c rest ih => simpa [parseMiddlewares] using ih
  · intro xs ys
    induction xs with
    | nil => rfl
    | cons c rest ih => simp [parseMiddlewares, ih]
  · intro xs
    induction xs with
    | nil =>
        intro i
        simp [parseMiddlewares]
    | cons c rest ih =>
        intro i
        cases i with
        | zero => simp [parseMiddlewares]
        | succ j => simpa [parseMiddlewares] using ih j

/-- C1, the code at the claim's input: a plain object carrying the callable
handler field (with a route and options) is NOT classified as a config
object, because isMiddlewareConfig probes a middleware field; the entry is
pushed through as a one-element tuple holding the object itself instead of
the claimed (route, handler, options) tuple, and the same happens to a
config carrying only a handler. -/
theorem parseMiddlewares_handler_config_not_classified :
    isMiddlewareConfig (MWEntry.obj (some "/x") (some (FieldVal.fn 5)) none (some 9)) = false
    ∧ parseMiddlewares [MWEntry.obj (some "/x") (some (FieldVal.fn 5)) none (some 9)] =
        [[PMItem.rawEntry (MWEntry.obj (some "/x") (some (FieldVal.fn 5)) none (some 9))]]
    ∧ parseMiddlewares [MWEntry.obj (some "/x") (some (FieldVal.fn 5)) none (some 9)] ≠
        [[PMItem.routeStr "/x", PMItem.handlerField (some (FieldVal.fn 5)),
          PMItem.optionsVal 9]]
    ∧ parseMiddlewares [MWEntry.obj none (some (FieldVal.fn 5)) none none] =
        [[PMItem.rawEntry (MWEntry.obj none (some (FieldVal.fn 5)) none none)]] := by
  refine ⟨by decide, by decide, by decide, by decide⟩

/-- C2, the code at the claim's input: a non-empty route tree parses to one
GET tuple, but registerRoutes issues no registration call at all — its guard
asks Array.isArray of the tree, which is a plain object, and returns
early. -/
theorem registerRoutes_guard_registers_nothing :
    registerRoutes
        [("/hello", RouteNode.node (some (MethodValue.fn 2)) none none none none none)] = []
    ∧ parseRoutes
        [("/hello", RouteNode.node (some (MethodValue.fn 2)) none none none none none)] "" =
        [⟨"/hello", "GET", HandlerVal.fn 2, none⟩] := by
  constructor
  · simp [registerRoutes, routesIsArray]
  · simp [parseRoutes, isRouteConfigB, HTTP_METHODS, routeConfigField, methodTuple,
      joinPaths, strJoin, stripTrailingSlash, strEndsWith, strDropLast, collapseSlashes,
      listLeads]

/-- C4: on a method-map node parseRoutes emits the present methods' tuples in
the fixed order GET, POST, PUT, PATCH, DELETE (the tuple carries the options
exactly when the method value is a handler-and-options config), then the
flattened children with the node's full path as the new base, then the rest
of the tree; the claim's example tree yields exactly its three tuples. -/
theorem parseRoutes_fixed_method_order :
    (∀ (path basePath : String) (g p u pa d : Option MethodValue)
        (ch : Option (List (String × RouteNode))) (rest : List (String × RouteNode)),
      parseRoutes ((path, RouteNode.node g p u pa d ch) :: rest) basePath =
        (if isRouteConfigB (RouteNode.node g p u pa d ch) then
          (methodTuple (joinPaths [basePath, path]) "GET" g
            ++ (methodTuple (joinPaths [basePath, path]) "POST" p
            ++ (methodTuple (joinPaths [basePath, path]) "PUT" u
            ++ (methodTuple (joinPaths [basePath, path]) "PATCH" pa
            ++ (methodTuple (joinPaths [basePath, path]) "DELETE" d
            ++ (match ch with
                | some c => parseRoutes c (joinPaths [basePath, path])
                | none => []))))))
        else
          [⟨joinPaths [basePath, path], "ALL",
            HandlerVal.objVal (RouteNode.node g p u pa d ch), none⟩])
          ++ parseRoutes rest basePath)
    ∧ parseRoutes
        [("/", RouteNode.node (some (MethodValue.fn 1)) none none none none none),
         ("/hello", RouteNode.node (some (MethodValue.fn 2))
            (some (MethodValue.config 3 (some 7))) none none none none)] "" =
        [⟨"/", "GET", HandlerVal.fn 1, none⟩,
         ⟨"/hello", "GET", HandlerVal.fn 2, none⟩,
         ⟨"/hello", "POST", HandlerVal.fn 3, some 7⟩] := by
  constructor
  · intro path basePath g p u pa d ch rest
    conv_lhs => rw [parseRoutes.eq_def]
    simp only [HTTP_METHODS, List.flatMap_cons, List.flatMap_nil,
      routeConfigField, List.append_nil, List.append_assoc]
  · simp [parseRoutes, isRouteConfigB, HTTP_METHODS, routeConfigField, methodTuple,
      joinPaths, strJoin, stripTrailingSlash, strEndsWith, strDropLast, collapseSlashes,
      listLeads]

/-- C8: a route whose method the router capability does not support
contributes no add call, only a warning, and the add calls are exactly the
supported routes' in order — so every sibling with a supported method is
still registered. -/
theorem addRoutes_unsupported_skip (supports : String → Bool)
    (routes : List MethodOption) (r : MethodOption)
    (hmem : r ∈ routes) (hbad : supports (r.method.getD "get") = false) :
    (addRoutes supports routes).filter RouterEvent.isAdd =
      ((routes.filter fun x => supports (x.method.getD "get")).map fun x =>
        RouterEvent.add x.url x.handler (x.method.getD "get"))
    ∧ RouterEvent.warn (r.method.getD "get") ∈ addRoutes supports routes
    ∧ RouterEvent.add r.url r.handler (r.method.getD "get") ∉ addRoutes supports routes := by
  refine ⟨?_, ?_, ?_⟩
  · clear hmem hbad
    induction routes with
    | nil => rfl
    | cons x xs ih =>
        by_cases hx : supports (x.method.getD "get") = true
        · simp [addRoutes, RouterEvent.isAdd, hx] at ih ⊢
          exact ih
        · simp [addRoutes, RouterEvent.isAdd, Bool.of_not_eq_true hx] at ih ⊢
          exact ih
  · unfold addRoutes
    exact List.mem_map.mpr ⟨r, hmem, by simp [hbad]⟩
  · intro hcon
    obtain ⟨x, hx, heq⟩ := List.mem_map.mp hcon
    by_cases hsx : supports (x.method.getD "get") = true
    · rw [if_pos hsx] at heq
      injection heq with _ _ hmeq
      rw [hmeq, hbad] at hsx
      exact Bool.noConfusion hsx
    · rw [if_neg hsx] at heq
      exact RouterEvent.noConfusion heq

/-- C8, witness: with a capability supporting only get and post, the route
with method "invalid-method" yields the warning event. -/
theorem addRoutes_unsupported_skip_witness :
    RouterEvent.warn "invalid-method" ∈
      addRoutes (fun m => m == "get" || m == "post")
        [⟨"/test", some "invalid-method", 5⟩, ⟨"/users", some "get", 6⟩] :=
  (addRoutes_unsupported_skip (fun m => m == "get" || m == "post")
      [⟨"/test", some "invalid-method", 5⟩, ⟨"/users", some "get", 6⟩]
      ⟨"/test", some "invalid-method", 5⟩ (by decide) (by decide)).2.1

/-- The prefix normalization exactly as claim C7 words it: prepend "/" when
missing, then strip one trailing "/" unless the prefix is exactly "/". -/
def claimNormalizePfx (pfx : String) : String :=
  let withSlash := if strStartsWith pfx "/" then pfx else "/" ++ pfx
  if strEndsWith withSlash "/" ∧ ¬(pfx = "/") then strDropLast withSlash else withSlash

/-- The per-url rewrite exactly as claim C7 words it: the url "/" becomes the
normalized prefix itself; a url starting with "/" becomes the normalized
prefix concatenated with the url; any other url gets a "/" inserted. -/
def claimRewriteUrl (np url : String) : String :=
  if url = "/" then np
  else if strStartsWith url "/" then np ++ url
  else np ++ "/" ++ url

/-- The per-url rewrite of claim C7 as amended: when the normalized prefix
collapses to exactly "/" a url that already starts with "/" is kept
unchanged; the other cases are as the claim words them. -/
def amendedRewriteUrl (np url : String) : String :=
  if url = "/" then np
  else if strStartsWith url "/" then
    if np = "/" then url else np ++ url
  else np ++ "/" ++ url

/-- C7, counterexample: the prefix "//" is non-empty, non-whitespace and not
"/"; it normalizes to "/", so the claim's second case demands that the url
"/users" become "//users", but the code leaves it "/users". -/
theorem addRoutesPrefix_collapsed_root_counterexample :
    strTrim "//" ≠ "" ∧ "//" ≠ "/"
    ∧ claimNormalizePfx "//" = "/"
    ∧ claimRewriteUrl (claimNormalizePfx "//") "/users" = "//users"
    ∧ addRoutesPrefix [⟨"/users", some "get", 3⟩] "//" = [⟨"/users", some "get", 3⟩] := by
  refine ⟨by decide, by decide, by decide, by decide, by decide⟩

/-- C7, amended: for every route array and every non-empty, non-whitespace
prefix other than "/", addRoutesPrefix rewrites each url by the claim's three
cases over the normalized prefix, except that when the normalized prefix
collapses to exactly "/" a url already starting with "/" is kept
unchanged. -/
theorem addRoutesPrefix_normalized_rewrite (routes : List MethodOption) (pfx : String)
    (h1 : strTrim pfx ≠ "") (h2 : pfx ≠ "/") :
    addRoutesPrefix routes pfx =
      routes.map fun r =>
        { url := amendedRewriteUrl (claimNormalizePfx pfx) r.url,
          method := r.method, handler := r.handler } := by
  have hne : pfx ≠ "" := by
    intro h
    rw [h] at h1
    exact h1 rfl
  have hclean : cleanPrefixOf pfx = claimNormalizePfx pfx := by
    simp only [cleanPrefixOf, claimNormalizePfx]
    by_cases hsw : strStartsWith pfx "/" = true
    · rw [if_pos hsw]
    · rw [if_neg hsw]
      by_cases hend : strEndsWith ("/" ++ pfx) "/" = true
      · rw [if_pos ⟨hend, slash_append_ne_root pfx hne⟩, if_pos ⟨hend, h2⟩]
      · rw [if_neg fun hcon => hend hcon.1, if_neg fun hcon => hend hcon.1]
  unfold addRoutesPrefix
  rw [if_neg fun hcon => hcon.elim hne h1, hclean]
  apply List.map_congr_left
  intro r _
  obtain ⟨u, m, hdl⟩ := r
  simp only [prefixRoute, amendedRewriteUrl, MethodOption.mk.injEq, and_true]
  by_cases hroot : u = "/"
  · rw [if_pos hroot, if_pos hroot]
    by_cases hnp : claimNormalizePfx pfx = "/"
    · rw [if_pos hnp, hnp]
    · rw [if_neg hnp]
  · rw [if_neg hroot, if_neg hroot]

/-- C7, witness: the prefix "api" rewrites the url "/users" to
"/api/users". -/
theorem addRoutesPrefix_normalized_rewrite_witness :
    strTrim "api" ≠ "" ∧ ("api" : String) ≠ "/"
    ∧ addRoutesPrefix [⟨"/users", some "get", 9⟩] "api" = [⟨"/api/users", some "get", 9⟩] :=
  ⟨by decide, by decide,
    (addRoutesPrefix_normalized_rewrite [⟨"/users", some "get", 9⟩] "api"
      (by decide) (by decide)).trans (by decide)⟩

/-- C6, counterexample: with two routes whose url is "/" (GET and POST) and
the prefix "/api", only the first found root route is registered on the base
router; the second root route's handler 2 appears in no registration call,
although the claim says any route with url "/" is registered on the base
router. -/
theorem createH3Router_duplicate_root_counterexample :
    createH3Router (fun _ => true) [⟨"/", some "get", 1⟩, ⟨"/", some "post", 2⟩]
        (some "/api") =
      H3RouterResult.nested [("/api", 1, some "get")] "/api/**" "/api" []
    ∧ ¬(2 ∈ registeredHandlers
        (createH3Router (fun _ => true) [⟨"/", some "get", 1⟩, ⟨"/", some "post", 2⟩]
          (some "/api"))) := by
  refine ⟨by decide, by decide⟩

/-- C6, amended: with a non-empty, non-whitespace prefix other than "/", the
builder removes every route whose url is exactly "/" from the working set and
registers the first of them (when one exists) directly on the base router at
the normalized prefix; every remaining route is handed unprefixed to the
nested router, which is mounted at normalizedPrefix/** with the normalized
prefix stripped (useBase). -/
theorem createH3Router_prefixed_structure (supports : String → Bool)
    (routes : List MethodOption) (p : String)
    (h1 : strTrim p ≠ "") (h2 : p ≠ "/") :
    createH3Router supports routes (some p) =
      H3RouterResult.nested
        (((routes.find? fun r => r.url = "/").toList).map fun r =>
          (ensureLeadingSlash p, r.handler, r.method))
        (ensureLeadingSlash p ++ "/**") (ensureLeadingSlash p)
        (addRoutes supports (routes.filter fun r => ¬(r.url = "/"))) := by
  unfold createH3Router
  have hx : (!(isEmptyPfx (some p)) && decide (some p ≠ some "/")) = true := by
    simp [isEmptyPfx, h1, h2]
  rw [if_pos hx]
  cases hfind : routes.find? fun r => r.url = "/" with
  | none =>
      have hfilter : (routes.filter fun r => ¬(r.url = "/")) = routes := by
        rw [List.filter_eq_self]
        intro a ha
        have := List.find?_eq_none.mp hfind a ha
        simpa using this
      rw [hfilter]
      simp
  | some r0 =>
      simp [Option.toList]

/-- C6, witness: prefix "api" with a root route and one other route — the
root route lands on the base router at "/api", the other on the nested
router, mounted at /api/** with /api stripped. -/
theorem createH3Router_prefixed_structure_witness :
    strTrim "api" ≠ "" ∧ ("api" : String) ≠ "/"
    ∧ createH3Router (fun m => m == "get")
        [⟨"/", some "get", 1⟩, ⟨"/users", some "get", 2⟩] (some "api") =
        H3RouterResult.nested [("/api", 1, some "get")] "/api/**" "/api"
          [RouterEvent.add "/users" 2 "get"] :=
  ⟨by decide, by decide,
    (createH3Router_prefixed_structure (fun m => m == "get")
      [⟨"/", some "get", 1⟩, ⟨"/users", some "get", 2⟩] "api"
      (by decide) (by decide)).trans (by decide)⟩
